import Mathlib

/-!
Verification of the light-client post-processing backends of this repository
(file `light/postprocess.go`): the Canonical Hash Trie (CHT) indexer backend,
the BloomTrie indexer backend, and their shared root-record codec.

The Go source is shallowly embedded as pure Lean functions.  External
collaborators (the Merkle trie implementation, the raw key-value store, the
difficulty and bloom-bit readers, the bitmap compressor and the rlp encoder)
are passed in as explicit oracle functions, mirroring the fact that the file
under verification only calls them through their interfaces.  Go machine
integers are modelled as `Nat` with explicit reductions modulo `2 ^ 64` where
the source relies on `uint64` wraparound.
-/

namespace Light

/-- A Go byte slice, as a list of byte values (meaningful values are below 256). -/
abbrev Bytes := List Nat

/-- `common.Hash` is a 32-byte value; we model it as a number below `2 ^ 256`. -/
abbrev Hash := Fin (2 ^ 256)

/-- The all-zero hash, the value of `common.Hash{}` in Go. -/
def zeroHash : Hash := ⟨0, by positivity⟩

/-- A non-zero hash used as a concrete test value. -/
def oneHash : Hash := ⟨1, by norm_num⟩

/-- Fixed-width big-endian byte encoding: `beBytes w n` is the low `w` bytes of
`n`, most significant first.  `beBytes 8` models `binary.BigEndian.PutUint64`
and `beBytes 2` models `binary.BigEndian.PutUint16` (the Go casts to `uint64`
and `uint16` are absorbed by the implicit reduction modulo `256 ^ w`). -/
def beBytes : Nat → Nat → Bytes
  | 0, _ => []
  | w + 1, n => beBytes w (n / 256) ++ [n % 256]

/-- Big-endian value of a byte list (each entry reduced to a byte). -/
def beValue (bs : Bytes) : Nat := bs.foldl (fun acc b => acc * 256 + b % 256) 0

/-- `common.Hash.Bytes()`: the 32-byte big-endian form of a hash. -/
def hashToBytes (h : Hash) : Bytes := beBytes 32 h.val

/-- `common.BytesToHash`: interpret a byte slice as a hash, keeping the low
32 bytes and left-padding with zeros (so the empty slice maps to the zero
hash). -/
def bytesToHash (bs : Bytes) : Hash :=
  ⟨beValue bs % 2 ^ 256, Nat.mod_lt _ (by positivity)⟩

/-- The raw key-value store (`mandb.Database`): a partial map from byte keys
to byte values.  `none` models both a missing key and a read error, matching
the Go callers, which ignore the error component of `db.Get`. -/
abbrev Db := Bytes → Option Bytes

def emptyDb : Db := fun _ => none

/-- `db.Put`: insert or overwrite one key. -/
def dbPut (db : Db) (k v : Bytes) : Db := fun q => if q = k then some v else db q

/-- The byte content of the Go constant `chtPrefix = []byte("chtRoot-")`. -/
def chtRootTag : Bytes := [0x63, 0x68, 0x74, 0x52, 0x6f, 0x6f, 0x74, 0x2d]

/-- The byte content of the Go constant `bloomTriePrefix = []byte("bltRoot-")`. -/
def bloomTrieRootTag : Bytes := [0x62, 0x6c, 0x74, 0x52, 0x6f, 0x6f, 0x74, 0x2d]

/-- Database key of a CHT root record, as built by `GetChtRoot`/`StoreChtRoot`:
tag bytes, then the 8-byte big-endian section index, then the 32-byte head. -/
def chtRootKey (sectionIdx : Nat) (sectionHead : Hash) : Bytes :=
  chtRootTag ++ beBytes 8 sectionIdx ++ hashToBytes sectionHead

/-- Database key of a BloomTrie root record. -/
def bltRootKey (sectionIdx : Nat) (sectionHead : Hash) : Bytes :=
  bloomTrieRootTag ++ beBytes 8 sectionIdx ++ hashToBytes sectionHead

/-- `GetChtRoot`: read the CHT root record for `(sectionIdx, sectionHead)`;
a missing key yields the zero hash, not an error. -/
def GetChtRoot (db : Db) (sectionIdx : Nat) (sectionHead : Hash) : Hash :=
  bytesToHash ((db (chtRootKey sectionIdx sectionHead)).getD [])

/-- `StoreChtRoot`: write the CHT root record for `(sectionIdx, sectionHead)`. -/
def StoreChtRoot (db : Db) (sectionIdx : Nat) (sectionHead root : Hash) : Db :=
  dbPut db (chtRootKey sectionIdx sectionHead) (hashToBytes root)

/-- `GetBloomTrieRoot`: read the BloomTrie root record for the given pair. -/
def GetBloomTrieRoot (db : Db) (sectionIdx : Nat) (sectionHead : Hash) : Hash :=
  bytesToHash ((db (bltRootKey sectionIdx sectionHead)).getD [])

/-- `StoreBloomTrieRoot`: write the BloomTrie root record for the given pair. -/
def StoreBloomTrieRoot (db : Db) (sectionIdx : Nat) (sectionHead root : Hash) : Db :=
  dbPut db (bltRootKey sectionIdx sectionHead) (hashToBytes root)

/-- The in-memory Merkle trie handle (`trie.Trie`), abstracted to its
key-value content: the trie implementation is an external collaborator, so
only the map it represents matters to the code under verification. -/
abbrev TrieMap := Bytes → Option Bytes

def emptyTrie : TrieMap := fun _ => none

/-- `trie.Update`: insert or overwrite one key. -/
def trieUpdate (t : TrieMap) (k v : Bytes) : TrieMap :=
  fun q => if q = k then some v else t q

/-- `trie.Delete`: remove one key. -/
def trieDelete (t : TrieMap) (k : Bytes) : TrieMap :=
  fun q => if q = k then none else t q

/-- Constants from `light/postprocess.go`. -/
def CHTFrequencyClient : Nat := 32768

def CHTFrequencyServer : Nat := 4096

def HelperTrieConfirmations : Nat := 2048

def HelperTrieProcessConfirmations : Nat := 256

def BloomTrieFrequency : Nat := 32768

def manBloomBitsSection : Nat := 4096

/-- Modelled from the spec: `types.BloomBitLength` lives in the `core/types`
package, which is not under `src/`; the spec fixes the filter-bit width as
2048 bits per header. -/
def BloomBitLength : Nat := 2048

/-- `2 ^ 64`, the modulus of Go `uint64` arithmetic. -/
def U64 : Nat := 2 ^ 64

/-- A block header, reduced to the two attributes the backends read from it:
`header.Hash()` and `header.Number.Uint64()`. -/
structure Header where
  hashVal : Hash
  number : Nat

/-- Outcome of a `Process` call: Go `Process` returns nothing, but the CHT
variant can abort the whole process via `panic`, and the BloomTrie variant
can abort via an out-of-range slice index. -/
inductive ProcResult (σ : Type) where
  | panic : ProcResult σ
  | next : σ → ProcResult σ

/-- Events observable on the underlying storage during a `Commit`, in
execution order: the attempt to persist the committed trie nodes
(`triedb.Commit`, together with its success flag) and the write of the
section root record. -/
inductive Ev where
  | persistNodes : Hash → Bool → Ev
  | storeRoot : Bytes → Bytes → Ev
deriving DecidableEq

/-- Mutable fields of `ChtIndexerBackend`. -/
structure ChtState where
  sectionIdx : Nat
  sectionSize : Nat
  lastHash : Hash
  trie : TrieMap

/-- Minimal big-endian byte form of a number, with no leading zero byte
(`big.Int.Bytes()`-style: zero encodes to the empty slice). -/
def minimalBE (n : Nat) : Bytes :=
  if hn : n = 0 then [] else minimalBE (n / 256) ++ [n % 256]
termination_by n
decreasing_by exact Nat.div_lt_self (Nat.pos_of_ne_zero hn) (by norm_num)

/-- Modelled from the spec: the `rlp` package is not under `src/`.  The spec
describes the `ChtNode` leaf payload as a canonical deterministic binary
encoding with field order hash then total difficulty, a fixed-width hash and
a variable-width big-endian integer with an explicit length prefix. -/
def encodeChtNode (h : Hash) (td : Nat) : Bytes :=
  hashToBytes h ++ [(minimalBE td).length] ++ minimalBE td

/-- The root at which `ChtIndexerBackend.Reset` opens the section trie. -/
def chtResetRoot (db : Db) (sectionIdx : Nat) (lastSectionHead : Hash) : Hash :=
  if 0 < sectionIdx then GetChtRoot db (sectionIdx - 1) lastSectionHead else zeroHash

/-- `ChtIndexerBackend.Reset`: open a trie at the previous section root (the
zero root for section 0) through the external trie store `openFn`; a failure
of `trie.New` is returned to the caller. -/
def ChtReset (openFn : Hash → Option TrieMap) (db : Db) (st : ChtState)
    (sectionIdx : Nat) (lastSectionHead : Hash) : Option ChtState :=
  (openFn (chtResetRoot db sectionIdx lastSectionHead)).map
    (fun t => { st with trie := t, sectionIdx := sectionIdx })

/-- `ChtIndexerBackend.Process`: look up the total difficulty of the header
through the external reader `td` (`rawdb.ReadTd`); a missing record panics.
Otherwise record the header hash as the running last hash and write the
encoded node into the open trie at the 8-byte big-endian block number. -/
def ChtProcess (td : Hash → Nat → Option Nat) (st : ChtState) (header : Header) :
    ProcResult ChtState :=
  let hash := header.hashVal
  let num := header.number % U64
  match td hash num with
  | none => .panic
  | some t =>
    .next { st with
      lastHash := hash,
      trie := trieUpdate st.trie (beBytes 8 num) (encodeChtNode hash t) }

/-- `ChtIndexerBackend.Commit`: commit the trie through the external
`commitFn` (`trie.Commit`); on failure return the error.  Otherwise persist
the trie nodes (`triedb.Commit`, whose success flag `persistOk` the source
discards) and then store the root record keyed by the current section and the
running last hash.  The second component is the storage event trace. -/
def ChtCommit (commitFn : TrieMap → Option Hash) (persistOk : Hash → Bool)
    (db : Db) (st : ChtState) : Option (Hash × Db) × List Ev :=
  match commitFn st.trie with
  | none => (none, [])
  | some root =>
    (some (root, StoreChtRoot db st.sectionIdx st.lastHash root),
     [.persistNodes root (persistOk root),
      .storeRoot (chtRootKey st.sectionIdx st.lastHash) (hashToBytes root)])

/-- Fold `ChtProcess` over a header sequence, stopping at a panic. -/
def chtProcessAll (td : Hash → Nat → Option Nat) (st : ChtState)
    (headers : List Header) : ProcResult ChtState :=
  headers.foldl
    (fun r h => match r with | .panic => .panic | .next s => ChtProcess td s h)
    (.next st)

/-- One full CHT section pass `Reset -> Process* -> Commit`, returning the
section root and the database holding the persisted root record, or `none`
on any abort. -/
def chtRun (openFn : Hash → Option TrieMap) (commitFn : TrieMap → Option Hash)
    (persistOk : Hash → Bool) (td : Hash → Nat → Option Nat) (db : Db)
    (st0 : ChtState) (sectionIdx : Nat) (head : Hash) (headers : List Header) :
    Option (Hash × Db) :=
  match ChtReset openFn db st0 sectionIdx head with
  | none => none
  | some st1 =>
    match chtProcessAll td st1 headers with
    | .panic => none
    | .next st2 => (ChtCommit commitFn persistOk db st2).1

/-- Mutable fields of `BloomTrieIndexerBackend`. -/
structure BloomState where
  sectionIdx : Nat
  parentSectionSize : Nat
  bloomTrieRatio : Nat
  trie : TrieMap
  sectionHeads : List Hash

/-- The root at which `BloomTrieIndexerBackend.Reset` opens the section trie. -/
def bloomResetRoot (db : Db) (sectionIdx : Nat) (lastSectionHead : Hash) : Hash :=
  if 0 < sectionIdx then GetBloomTrieRoot db (sectionIdx - 1) lastSectionHead
  else zeroHash

/-- `BloomTrieIndexerBackend.Reset`: same shape as the CHT variant, through
the BloomTrie root codec; the source does not touch `sectionHeads` here. -/
def BloomReset (openFn : Hash → Option TrieMap) (db : Db) (st : BloomState)
    (sectionIdx : Nat) (lastSectionHead : Hash) : Option BloomState :=
  (openFn (bloomResetRoot db sectionIdx lastSectionHead)).map
    (fun t => { st with trie := t, sectionIdx := sectionIdx })

/-- `BloomTrieIndexerBackend.Process`: compute the position of the header in
the current section with `uint64` arithmetic; at a sub-section boundary
record the header hash in `sectionHeads` (an out-of-range index aborts, as Go
slice indexing panics); every other header leaves the state unchanged. -/
def BloomProcess (st : BloomState) (header : Header) : ProcResult BloomState :=
  let num := (header.number % U64 + (U64 - st.sectionIdx * BloomTrieFrequency % U64)) % U64
  if (num + 1) % U64 % st.parentSectionSize = 0 then
    if num / st.parentSectionSize < st.sectionHeads.length then
      .next { st with
        sectionHeads := st.sectionHeads.set (num / st.parentSectionSize) header.hashVal }
    else .panic
  else .next st

/-- The 10-byte BloomTrie leaf key: 2-byte big-endian bit index, then 8-byte
big-endian section index. -/
def bloomTrieKey (bitIdx sectionIdx : Nat) : Bytes :=
  beBytes 2 bitIdx ++ beBytes 8 sectionIdx

/-- The inner loop of `BloomTrieIndexerBackend.Commit` for one bit index:
read the compressed bit column of each constituent sub-section through the
external reader `rb` (`rawdb.ReadBloomBits`, keyed by the recorded
sub-section head), decompress it through `dc` (`bitutil.DecompressBytes`)
to `parentSectionSize / 8` bytes, and concatenate; any failure is returned. -/
def bloomColumn (rb : Nat → Nat → Hash → Option Bytes)
    (dc : Bytes → Nat → Option Bytes) (st : BloomState) (i : Nat) : Option Bytes :=
  (List.range st.bloomTrieRatio).foldlM
    (fun decomp j =>
      (rb i (st.sectionIdx * st.bloomTrieRatio + j) (st.sectionHeads.getD j zeroHash)).bind
        (fun data =>
          (dc data (st.parentSectionSize / 8)).map (fun d => decomp ++ d)))
    []

/-- One iteration of the outer loop of `BloomTrieIndexerBackend.Commit`:
recompress the concatenated column through `cp` (`bitutil.CompressBytes`) and
update the trie leaf when the payload is non-empty, delete it otherwise. -/
def bloomStep (rb : Nat → Nat → Hash → Option Bytes)
    (dc : Bytes → Nat → Option Bytes) (cp : Bytes → Bytes) (st : BloomState)
    (t : TrieMap) (i : Nat) : Option TrieMap :=
  (bloomColumn rb dc st i).map (fun decomp =>
    if 0 < (cp decomp).length then
      trieUpdate t (bloomTrieKey i st.sectionIdx) (cp decomp)
    else
      trieDelete t (bloomTrieKey i st.sectionIdx))

/-- Run `step` on the bit indices `0, 1, ..., n - 1` in ascending order,
stopping at the first failure (the shape of the sequential Go `for` loop). -/
def bloomLoopAux (step : TrieMap → Nat → Option TrieMap) :
    Nat → TrieMap → Option TrieMap
  | 0, t => some t
  | n + 1, t =>
    match bloomLoopAux step n t with
    | none => none
    | some t2 => step t2 n

/-- The full leaf-building loop of `BloomTrieIndexerBackend.Commit` over all
`BloomBitLength` bit indices, starting from the open section trie. -/
def bloomCommitLoop (rb : Nat → Nat → Hash → Option Bytes)
    (dc : Bytes → Nat → Option Bytes) (cp : Bytes → Bytes) (st : BloomState) :
    Option TrieMap :=
  bloomLoopAux (bloomStep rb dc cp st) BloomBitLength st.trie

/-- The tail of `BloomTrieIndexerBackend.Commit` after the leaf-building
loop has produced the trie `t`: commit the trie through `commitFn`, persist
the nodes (success flag discarded by the source), and store the root record
keyed by the current section and the last entry of `sectionHeads`.  The
second component is the storage event trace. -/
def bloomFinish (commitFn : TrieMap → Option Hash) (persistOk : Hash → Bool)
    (db : Db) (st : BloomState) (t : TrieMap) :
    Option (Hash × Db × BloomState) × List Ev :=
  match commitFn t with
  | none => (none, [])
  | some root =>
    (some (root,
       StoreBloomTrieRoot db st.sectionIdx
         (st.sectionHeads.getD (st.bloomTrieRatio - 1) zeroHash) root,
       { st with trie := t }),
     [.persistNodes root (persistOk root),
      .storeRoot (bltRootKey st.sectionIdx
          (st.sectionHeads.getD (st.bloomTrieRatio - 1) zeroHash))
        (hashToBytes root)])

/-- `BloomTrieIndexerBackend.Commit`: build all leaves, then finish with
`bloomFinish`. -/
def BloomCommit (commitFn : TrieMap → Option Hash) (persistOk : Hash → Bool)
    (rb : Nat → Nat → Hash → Option Bytes) (dc : Bytes → Nat → Option Bytes)
    (cp : Bytes → Bytes) (db : Db) (st : BloomState) :
    Option (Hash × Db × BloomState) × List Ev :=
  match bloomCommitLoop rb dc cp st with
  | none => (none, [])
  | some t => bloomFinish commitFn persistOk db st t

/-- Fold `BloomProcess` over a header sequence, stopping at an abort. -/
def bloomProcessAll (st : BloomState) (headers : List Header) :
    ProcResult BloomState :=
  headers.foldl
    (fun r h => match r with | .panic => .panic | .next s => BloomProcess s h)
    (.next st)

/-- One full BloomTrie section pass `Reset -> Process* -> Commit`. -/
def bloomRun (openFn : Hash → Option TrieMap) (commitFn : TrieMap → Option Hash)
    (persistOk : Hash → Bool) (rb : Nat → Nat → Hash → Option Bytes)
    (dc : Bytes → Nat → Option Bytes) (cp : Bytes → Bytes) (db : Db)
    (st0 : BloomState) (sectionIdx : Nat) (head : Hash) (headers : List Header) :
    Option (Hash × Db) :=
  match BloomReset openFn db st0 sectionIdx head with
  | none => none
  | some st1 =>
    match bloomProcessAll st1 headers with
    | .panic => none
    | .next st2 =>
      match (BloomCommit commitFn persistOk rb dc cp db st2).1 with
      | none => none
      | some (root, db2, _) => some (root, db2)

/-- Modelled from the spec: `bitutil.CompressBytes` (package `common/bitutil`)
is not under `src/`.  The spec pins down its contract: a reversible
compressor on byte bitmaps whose output on an all-zero bitmap has zero
length. -/
def CompressBytes (data : Bytes) : Bytes :=
  if data.all (· = 0) then [] else data

/-- Modelled from the spec: `bitutil.DecompressBytes` (package
`common/bitutil`) is not under `src/`.  The spec pins down its contract: the
exact inverse of `CompressBytes` at the expected bit length, failing on a
corrupt or truncated payload instead of best-effort decoding. -/
def DecompressBytes (data : Bytes) (target : Nat) : Option Bytes :=
  if data = [] then some (List.replicate target 0)
  else if data.length = target then some data
  else none

/-! Concrete fixtures used by witnesses and counterexamples. -/

def exOpen : Hash → Option TrieMap := fun _ => some emptyTrie

def exCf : TrieMap → Option Hash := fun _ => some zeroHash

def exCfFail : TrieMap → Option Hash := fun _ => none

def exPersistOk : Hash → Bool := fun _ => true

def exPersistFail : Hash → Bool := fun _ => false

def exTd : Hash → Nat → Option Nat := fun _ _ => some 1

def exTdMissing : Hash → Nat → Option Nat := fun _ _ => none

def exRb : Nat → Nat → Hash → Option Bytes := fun _ _ _ => some []

def exDc : Bytes → Nat → Option Bytes := fun _ _ => some []

def exCp : Bytes → Bytes := fun d => d

def exChtState : ChtState :=
  { sectionIdx := 0, sectionSize := 32768, lastHash := zeroHash, trie := emptyTrie }

def exBloomState8 : BloomState :=
  { sectionIdx := 0, parentSectionSize := 4096, bloomTrieRatio := 8,
    trie := emptyTrie, sectionHeads := List.replicate 8 zeroHash }

def exBloomState0 : BloomState :=
  { sectionIdx := 0, parentSectionSize := 8, bloomTrieRatio := 0,
    trie := emptyTrie, sectionHeads := [] }

def exHeader : Header := { hashVal := oneHash, number := 0 }

/-- The trie produced by the fixture BloomTrie commit loop: all leaves of
section 0 deleted, in ascending bit order. -/
def exDeleteAux : Nat → TrieMap → TrieMap
  | 0, t => t
  | n + 1, t => trieDelete (exDeleteAux n t) (bloomTrieKey n 0)

/-! General lemmas about the byte codecs and the storage model. -/

theorem beBytes_length (w : Nat) : ∀ n, (beBytes w n).length = w := by
  induction w with
  | zero => intro n; rfl
  | succ w ih => intro n; simp [beBytes, ih]

theorem beValue_append_byte (bs : Bytes) (b : Nat) :
    beValue (bs ++ [b]) = beValue bs * 256 + b % 256 := by
  simp [beValue, List.foldl_append]

theorem beValue_beBytes (w : Nat) : ∀ n, beValue (beBytes w n) = n % 256 ^ w := by
  induction w with
  | zero => intro n; simp [beBytes, beValue, Nat.mod_one]
  | succ w ih =>
    intro n
    rw [beBytes, beValue_append_byte, ih, Nat.pow_succ, Nat.mul_comm (256 ^ w) 256,
      Nat.mod_mul]
    have hb : n % 256 % 256 = n % 256 := Nat.mod_mod_of_dvd n dvd_rfl
    rw [hb]
    ring

theorem pow256_32 : (256 : Nat) ^ 32 = 2 ^ 256 := by norm_num

theorem bytesToHash_hashToBytes (h : Hash) : bytesToHash (hashToBytes h) = h := by
  unfold bytesToHash hashToBytes
  apply Fin.ext
  show beValue (beBytes 32 h.val) % 2 ^ 256 = h.val
  rw [beValue_beBytes, pow256_32, Nat.mod_mod_of_dvd _ dvd_rfl,
    Nat.mod_eq_of_lt h.isLt]

theorem hashToBytes_injective {h1 h2 : Hash} (hne : h1 ≠ h2) :
    hashToBytes h1 ≠ hashToBytes h2 := fun he =>
  hne (by rw [← bytesToHash_hashToBytes h1, he, bytesToHash_hashToBytes])

theorem bytesToHash_nil : bytesToHash [] = zeroHash := rfl

theorem dbPut_same (db : Db) (k v : Bytes) : dbPut db k v k = some v := by
  simp [dbPut]

theorem dbPut_other (db : Db) (k v q : Bytes) (h : q ≠ k) : dbPut db k v q = db q := by
  simp [dbPut, h]

theorem getChtRoot_store (db : Db) (s : Nat) (head root : Hash) :
    GetChtRoot (StoreChtRoot db s head root) s head = root := by
  unfold GetChtRoot StoreChtRoot
  rw [dbPut_same]
  exact bytesToHash_hashToBytes root

theorem getBloomTrieRoot_store (db : Db) (s : Nat) (head root : Hash) :
    GetBloomTrieRoot (StoreBloomTrieRoot db s head root) s head = root := by
  unfold GetBloomTrieRoot StoreBloomTrieRoot
  rw [dbPut_same]
  exact bytesToHash_hashToBytes root

theorem chtRootKey_inj (s : Nat) {h1 h2 : Hash} (hne : h1 ≠ h2) :
    chtRootKey s h1 ≠ chtRootKey s h2 := by
  unfold chtRootKey
  intro he
  rw [List.append_cancel_left_eq] at he
  exact hashToBytes_injective hne he

theorem bltRootKey_inj (s : Nat) {h1 h2 : Hash} (hne : h1 ≠ h2) :
    bltRootKey s h1 ≠ bltRootKey s h2 := by
  unfold bltRootKey
  intro he
  rw [List.append_cancel_left_eq] at he
  exact hashToBytes_injective hne he

theorem bloomTrieKey_inj (s : Nat) {i j : Nat} (hi : i < 65536) (hj : j < 65536)
    (hne : i ≠ j) : bloomTrieKey i s ≠ bloomTrieKey j s := by
  unfold bloomTrieKey
  intro he
  have h2 : beBytes 2 i = beBytes 2 j := List.append_cancel_right he
  have h3 := congrArg beValue h2
  rw [beValue_beBytes, beValue_beBytes] at h3
  rw [show (256 : Nat) ^ 2 = 65536 by norm_num] at h3
  omega

theorem bloomStep_lookup_other {rb : Nat → Nat → Hash → Option Bytes}
    {dc : Bytes → Nat → Option Bytes} {cp : Bytes → Bytes} {st : BloomState}
    {t t2 : TrieMap} {i : Nat} (hstep : bloomStep rb dc cp st t i = some t2)
    {q : Bytes} (hq : q ≠ bloomTrieKey i st.sectionIdx) : t2 q = t q := by
  unfold bloomStep at hstep
  obtain ⟨d, _, ht2⟩ := Option.map_eq_some'.1 hstep
  subst ht2
  split
  · simp [trieUpdate, hq]
  · simp [trieDelete, hq]

theorem bloomStep_lookup_self {rb : Nat → Nat → Hash → Option Bytes}
    {dc : Bytes → Nat → Option Bytes} {cp : Bytes → Bytes} {st : BloomState}
    {t t2 : TrieMap} {i : Nat} (hstep : bloomStep rb dc cp st t i = some t2) :
    ∃ d, bloomColumn rb dc st i = some d ∧
      t2 (bloomTrieKey i st.sectionIdx)
        = if 0 < (cp d).length then some (cp d) else none := by
  unfold bloomStep at hstep
  obtain ⟨d, hd, ht2⟩ := Option.map_eq_some'.1 hstep
  subst ht2
  refine ⟨d, hd, ?_⟩
  split
  · simp [trieUpdate]
  · simp [trieDelete]

theorem bloomLoop_lookup (rb : Nat → Nat → Hash → Option Bytes)
    (dc : Bytes → Nat → Option Bytes) (cp : Bytes → Bytes) (st : BloomState) :
    ∀ n, n ≤ 65536 → ∀ t0 t : TrieMap,
      bloomLoopAux (bloomStep rb dc cp st) n t0 = some t →
      ∀ i, i < n →
        ∃ d, bloomColumn rb dc st i = some d ∧
          t (bloomTrieKey i st.sectionIdx)
            = if 0 < (cp d).length then some (cp d) else none := by
  intro n
  induction n with
  | zero => intro _ t0 t _ i hi; exact absurd hi (Nat.not_lt_zero i)
  | succ n ih =>
    intro hn t0 t hfold i hi
    unfold bloomLoopAux at hfold
    cases hmid : bloomLoopAux (bloomStep rb dc cp st) n t0 with
    | none => rw [hmid] at hfold; exact absurd hfold (by simp)
    | some tm =>
      rw [hmid] at hfold
      rcases Nat.lt_succ_iff_lt_or_eq.1 hi with hlt | heq
      · obtain ⟨d, hd, hv⟩ := ih (Nat.le_of_succ_le hn) t0 tm hmid i hlt
        refine ⟨d, hd, ?_⟩
        rw [bloomStep_lookup_other hfold
          (bloomTrieKey_inj st.sectionIdx (by omega) (by omega) (by omega)), hv]
      · subst heq
        exact bloomStep_lookup_self hfold

/-! Claim theorems. -/

/-- Claim C10: the root codecs use key `tag ++ bigEndian64(sectionIdx) ++
sectionHead` (tag `chtRoot-` for CHT, `bltRoot-` for BloomTrie, head 32
bytes); a get on a pair that was never stored returns the zero hash rather
than an error, and a get after the corresponding store returns exactly the
stored root. -/
theorem root_codec_get_put (db : Db) (s : Nat) (head root : Hash) :
    chtRootKey s head = chtRootTag ++ beBytes 8 s ++ hashToBytes head ∧
    bltRootKey s head = bloomTrieRootTag ++ beBytes 8 s ++ hashToBytes head ∧
    (beBytes 8 s).length = 8 ∧
    (hashToBytes head).length = 32 ∧
    (db (chtRootKey s head) = none → GetChtRoot db s head = zeroHash) ∧
    GetChtRoot (StoreChtRoot db s head root) s head = root ∧
    (db (bltRootKey s head) = none → GetBloomTrieRoot db s head = zeroHash) ∧
    GetBloomTrieRoot (StoreBloomTrieRoot db s head root) s head = root := by
  refine ⟨rfl, rfl, beBytes_length 8 s, beBytes_length 32 head.val, ?_,
    getChtRoot_store db s head root, ?_, getBloomTrieRoot_store db s head root⟩
  · intro h
    unfold GetChtRoot
    rw [h]
    rfl
  · intro h
    unfold GetBloomTrieRoot
    rw [h]
    rfl

theorem root_codec_get_put_witness :
    GetChtRoot emptyDb 0 zeroHash = zeroHash ∧
    GetChtRoot (StoreChtRoot emptyDb 0 zeroHash oneHash) 0 zeroHash = oneHash ∧
    GetBloomTrieRoot emptyDb 0 zeroHash = zeroHash ∧
    GetBloomTrieRoot (StoreBloomTrieRoot emptyDb 0 zeroHash oneHash) 0 zeroHash
      = oneHash :=
  ⟨(root_codec_get_put emptyDb 0 zeroHash oneHash).2.2.2.2.1 rfl,
   (root_codec_get_put emptyDb 0 zeroHash oneHash).2.2.2.2.2.1,
   (root_codec_get_put emptyDb 0 zeroHash oneHash).2.2.2.2.2.2.1 rfl,
   (root_codec_get_put emptyDb 0 zeroHash oneHash).2.2.2.2.2.2.2⟩

/-- Claim C7: for a fixed section index, root records under two distinct
section heads live at disjoint database keys, so storing one and then the
other leaves both retrievable (for both trie kinds). -/
theorem root_records_reorg_disjoint (db : Db) (s : Nat) (h1 h2 r1 r2 : Hash)
    (hne : h1 ≠ h2) :
    chtRootKey s h1 ≠ chtRootKey s h2 ∧
    bltRootKey s h1 ≠ bltRootKey s h2 ∧
    GetChtRoot (StoreChtRoot (StoreChtRoot db s h1 r1) s h2 r2) s h1 = r1 ∧
    GetChtRoot (StoreChtRoot (StoreChtRoot db s h1 r1) s h2 r2) s h2 = r2 ∧
    GetBloomTrieRoot
      (StoreBloomTrieRoot (StoreBloomTrieRoot db s h1 r1) s h2 r2) s h1 = r1 ∧
    GetBloomTrieRoot
      (StoreBloomTrieRoot (StoreBloomTrieRoot db s h1 r1) s h2 r2) s h2 = r2 := by
  refine ⟨chtRootKey_inj s hne, bltRootKey_inj s hne, ?_,
    getChtRoot_store _ s h2 r2, ?_, getBloomTrieRoot_store _ s h2 r2⟩
  · unfold GetChtRoot StoreChtRoot
    rw [dbPut_other _ _ _ _ (chtRootKey_inj s hne), dbPut_same]
    exact bytesToHash_hashToBytes r1
  · unfold GetBloomTrieRoot StoreBloomTrieRoot
    rw [dbPut_other _ _ _ _ (bltRootKey_inj s hne), dbPut_same]
    exact bytesToHash_hashToBytes r1

theorem root_records_reorg_disjoint_witness :
    chtRootKey 3 zeroHash ≠ chtRootKey 3 oneHash ∧
    bltRootKey 3 zeroHash ≠ bltRootKey 3 oneHash ∧
    GetChtRoot (StoreChtRoot (StoreChtRoot emptyDb 3 zeroHash oneHash)
      3 oneHash zeroHash) 3 zeroHash = oneHash ∧
    GetChtRoot (StoreChtRoot (StoreChtRoot emptyDb 3 zeroHash oneHash)
      3 oneHash zeroHash) 3 oneHash = zeroHash ∧
    GetBloomTrieRoot (StoreBloomTrieRoot (StoreBloomTrieRoot emptyDb 3 zeroHash
      oneHash) 3 oneHash zeroHash) 3 zeroHash = oneHash ∧
    GetBloomTrieRoot (StoreBloomTrieRoot (StoreBloomTrieRoot emptyDb 3 zeroHash
      oneHash) 3 oneHash zeroHash) 3 oneHash = zeroHash :=
  root_records_reorg_disjoint emptyDb 3 zeroHash oneHash oneHash zeroHash
    (by decide)

/-- Claim C6: when the external total-difficulty record of the processed
header is absent, `ChtIndexerBackend.Process` panics (aborts the process); it
neither returns normally with any state (so no default difficulty is
substituted) nor signals a recoverable error (its result type has no error
outcome). -/
theorem cht_process_missing_td_panics (td : Hash → Nat → Option Nat)
    (st : ChtState) (h : Header)
    (hmiss : td h.hashVal (h.number % U64) = none) :
    ChtProcess td st h = .panic ∧ ∀ st2, ChtProcess td st h ≠ .next st2 := by
  have hp : ChtProcess td st h = .panic := by
    simp only [ChtProcess, hmiss]
  exact ⟨hp, fun st2 hn => by rw [hp] at hn; exact ProcResult.noConfusion hn⟩

theorem cht_process_missing_td_panics_witness :
    ChtProcess exTdMissing exChtState exHeader = .panic ∧
    ∀ st2, ChtProcess exTdMissing exChtState exHeader ≠ .next st2 :=
  cht_process_missing_td_panics exTdMissing exChtState exHeader rfl

/-- Claim C8: on a present difficulty record, `ChtIndexerBackend.Process`
writes the canonical encoding of (hash, total difficulty) — fixed-width hash
first, then the length-prefixed big-endian difficulty — into the open trie at
the 8-byte big-endian block number, and records the header hash as the
running last hash. -/
theorem cht_process_writes_chtnode (td : Hash → Nat → Option Nat)
    (st : ChtState) (h : Header) (t : Nat) (hnum : h.number < U64)
    (htd : td h.hashVal h.number = some t) :
    ChtProcess td st h = .next { st with
      lastHash := h.hashVal,
      trie := trieUpdate st.trie (beBytes 8 h.number)
        (encodeChtNode h.hashVal t) } ∧
    (beBytes 8 h.number).length = 8 ∧
    encodeChtNode h.hashVal t
      = hashToBytes h.hashVal ++ [(minimalBE t).length] ++ minimalBE t ∧
    (hashToBytes h.hashVal).length = 32 := by
  have hm : h.number % U64 = h.number := Nat.mod_eq_of_lt hnum
  refine ⟨?_, beBytes_length 8 h.number, rfl, beBytes_length 32 h.hashVal.val⟩
  simp only [ChtProcess, hm, htd]

theorem cht_process_writes_chtnode_witness :
    ChtProcess exTd exChtState exHeader = .next { exChtState with
      lastHash := oneHash,
      trie := trieUpdate emptyTrie (beBytes 8 0) (encodeChtNode oneHash 1) } ∧
    (beBytes 8 (0 : Nat)).length = 8 ∧
    encodeChtNode oneHash 1
      = hashToBytes oneHash ++ [(minimalBE 1).length] ++ minimalBE 1 ∧
    (hashToBytes oneHash).length = 32 :=
  cht_process_writes_chtnode exTd exChtState exHeader 1
    (by norm_num [U64, exHeader]) rfl

/-- Claim C5: the bitmap compressor round-trips exactly —
`DecompressBytes (CompressBytes b) (length of b)` recovers `b` — and on an
all-zero bitmap `CompressBytes` yields zero-length output, the convention the
BloomTrie commit logic uses to decide leaf deletion. -/
theorem compress_decompress_roundtrip (b : Bytes) :
    DecompressBytes (CompressBytes b) b.length = some b ∧
    (b.all (· = 0) = true → CompressBytes b = []) := by
  constructor
  · by_cases hz : b.all (· = 0)
    · have hb : b = List.replicate b.length 0 :=
        List.eq_replicate_iff.mpr ⟨rfl, by simpa [List.all_eq_true] using hz⟩
      rw [CompressBytes, if_pos hz, DecompressBytes, if_pos rfl]
      exact congrArg some hb.symm
    · have hne : b ≠ [] := by
        intro h
        subst h
        simp at hz
      rw [CompressBytes, if_neg hz, DecompressBytes, if_neg hne, if_pos rfl]
  · intro hz
    rw [CompressBytes, if_pos hz]

theorem compress_decompress_roundtrip_witness :
    CompressBytes [0, 0] = [] ∧
    DecompressBytes (CompressBytes [0, 0]) 2 = some [0, 0] ∧
    DecompressBytes (CompressBytes [0, 5, 0]) 3 = some [0, 5, 0] :=
  ⟨(compress_decompress_roundtrip [0, 0]).2 rfl,
   (compress_decompress_roundtrip [0, 0]).1,
   (compress_decompress_roundtrip [0, 5, 0]).1⟩

/-- Claim C2: `Reset(s, h)` on either backend opens a trie rooted at the
value read by the backend root codec at `(s - 1, h)` when `0 < s`, and at the
zero (empty) root when `s = 0`; a trie-open failure is returned to the
caller. -/
theorem reset_opens_previous_root (openFn : Hash → Option TrieMap) (db : Db)
    (stC : ChtState) (stB : BloomState) (sec : Nat) (head : Hash) :
    (0 < sec → chtResetRoot db sec head = GetChtRoot db (sec - 1) head) ∧
    (sec = 0 → chtResetRoot db sec head = zeroHash) ∧
    (∀ t, openFn (chtResetRoot db sec head) = some t →
      ChtReset openFn db stC sec head
        = some { stC with trie := t, sectionIdx := sec }) ∧
    (openFn (chtResetRoot db sec head) = none →
      ChtReset openFn db stC sec head = none) ∧
    (0 < sec → bloomResetRoot db sec head = GetBloomTrieRoot db (sec - 1) head) ∧
    (sec = 0 → bloomResetRoot db sec head = zeroHash) ∧
    (∀ t, openFn (bloomResetRoot db sec head) = some t →
      BloomReset openFn db stB sec head
        = some { stB with trie := t, sectionIdx := sec }) ∧
    (openFn (bloomResetRoot db sec head) = none →
      BloomReset openFn db stB sec head = none) := by
  refine ⟨fun h => by rw [chtResetRoot, if_pos h],
    fun h => by rw [chtResetRoot, h, if_neg (by omega)],
    fun t ht => by rw [ChtReset, ht]; rfl,
    fun ht => by rw [ChtReset, ht]; rfl,
    fun h => by rw [bloomResetRoot, if_pos h],
    fun h => by rw [bloomResetRoot, h, if_neg (by omega)],
    fun t ht => by rw [BloomReset, ht]; rfl,
    fun ht => by rw [BloomReset, ht]; rfl⟩

theorem reset_opens_previous_root_witness :
    chtResetRoot emptyDb 1 zeroHash = GetChtRoot emptyDb 0 zeroHash ∧
    chtResetRoot emptyDb 0 zeroHash = zeroHash ∧
    ChtReset exOpen emptyDb exChtState 1 zeroHash
      = some { exChtState with trie := emptyTrie, sectionIdx := 1 } ∧
    BloomReset exOpen emptyDb exBloomState8 1 zeroHash
      = some { exBloomState8 with trie := emptyTrie, sectionIdx := 1 } :=
  ⟨(reset_opens_previous_root exOpen emptyDb exChtState exBloomState8 1
      zeroHash).1 (by norm_num),
   (reset_opens_previous_root exOpen emptyDb exChtState exBloomState8 0
      zeroHash).2.1 rfl,
   (reset_opens_previous_root exOpen emptyDb exChtState exBloomState8 1
      zeroHash).2.2.1 emptyTrie rfl,
   (reset_opens_previous_root exOpen emptyDb exChtState exBloomState8 1
      zeroHash).2.2.2.2.2.2.1 emptyTrie rfl⟩

/-- Claim C3 (counterexample): the claim says a failure to persist the
committed trie nodes makes `Commit` return an error and suppresses the root
record.  The source discards the result of `triedb.Commit`: with a persist
oracle that always fails, `ChtIndexerBackend.Commit` still returns success,
still records the persist attempt followed by the root-record write, and
still produces the updated database. -/
theorem commit_persist_failure_ignored_cex :
    exPersistFail zeroHash = false ∧
    (ChtCommit exCf exPersistFail emptyDb exChtState).1
      = some (zeroHash, StoreChtRoot emptyDb 0 zeroHash zeroHash) ∧
    (ChtCommit exCf exPersistFail emptyDb exChtState).2
      = [Ev.persistNodes zeroHash false,
         Ev.storeRoot (chtRootKey 0 zeroHash) (hashToBytes zeroHash)] :=
  ⟨rfl, rfl, rfl⟩

/-- Claim C3 (amended): whenever the trie commit itself fails — and, for the
BloomTrie backend, whenever building the leaves fails — `Commit` returns an
error and neither persists nodes nor writes a root record; on success the
persist attempt strictly precedes the root-record write; but a failure of the
persist step itself is ignored: `Commit` still succeeds and still writes the
root record, whatever `persistOk` returns. -/
theorem commit_error_atomicity (cf : TrieMap → Option Hash) (p : Hash → Bool)
    (rb : Nat → Nat → Hash → Option Bytes) (dc : Bytes → Nat → Option Bytes)
    (cp : Bytes → Bytes) (db : Db) (stC : ChtState) (stB : BloomState) :
    (cf stC.trie = none → ChtCommit cf p db stC = (none, [])) ∧
    (∀ root, cf stC.trie = some root →
      ChtCommit cf p db stC
        = (some (root, StoreChtRoot db stC.sectionIdx stC.lastHash root),
           [.persistNodes root (p root),
            .storeRoot (chtRootKey stC.sectionIdx stC.lastHash)
              (hashToBytes root)])) ∧
    (bloomCommitLoop rb dc cp stB = none →
      BloomCommit cf p rb dc cp db stB = (none, [])) ∧
    (∀ t, bloomCommitLoop rb dc cp stB = some t → cf t = none →
      BloomCommit cf p rb dc cp db stB = (none, [])) ∧
    (∀ t root, bloomCommitLoop rb dc cp stB = some t → cf t = some root →
      BloomCommit cf p rb dc cp db stB
        = (some (root,
             StoreBloomTrieRoot db stB.sectionIdx
               (stB.sectionHeads.getD (stB.bloomTrieRatio - 1) zeroHash) root,
             { stB with trie := t }),
           [.persistNodes root (p root),
            .storeRoot (bltRootKey stB.sectionIdx
                (stB.sectionHeads.getD (stB.bloomTrieRatio - 1) zeroHash))
              (hashToBytes root)])) := by
  refine ⟨fun hc => by unfold ChtCommit; rw [hc],
    fun root hc => by unfold ChtCommit; rw [hc],
    fun hl => by unfold BloomCommit; rw [hl],
    fun t hl hc => by
      unfold BloomCommit
      rw [hl]
      show bloomFinish cf p db stB t = _
      unfold bloomFinish
      rw [hc],
    fun t root hl hc => by
      unfold BloomCommit
      rw [hl]
      show bloomFinish cf p db stB t = _
      unfold bloomFinish
      rw [hc]⟩

theorem commit_error_atomicity_witness :
    ChtCommit exCfFail exPersistOk emptyDb exChtState = (none, []) ∧
    ChtCommit exCf exPersistOk emptyDb exChtState
      = (some (zeroHash, StoreChtRoot emptyDb 0 zeroHash zeroHash),
         [Ev.persistNodes zeroHash true,
          Ev.storeRoot (chtRootKey 0 zeroHash) (hashToBytes zeroHash)]) :=
  ⟨(commit_error_atomicity exCfFail exPersistOk exRb exDc exCp emptyDb
      exChtState exBloomState8).1 rfl,
   (commit_error_atomicity exCf exPersistOk exRb exDc exCp emptyDb
      exChtState exBloomState8).2.1 zeroHash rfl⟩

/-- Claim C9: for a header inside the current BloomTrie section with offset
`k = blockNumber - sectionIdx * BloomTrieFrequency`, `Process` records the
header hash at index `k / parentSectionSize` of `sectionHeads` exactly when
`(k + 1) % parentSectionSize = 0`, and otherwise leaves the state entirely
unchanged. -/
theorem bloom_process_subsection_heads (st : BloomState) (h : Header) (k : Nat)
    (hpss : 0 < st.parentSectionSize)
    (hlen : st.parentSectionSize * st.sectionHeads.length = BloomTrieFrequency)
    (hnum : h.number = st.sectionIdx * BloomTrieFrequency + k)
    (hk : k < BloomTrieFrequency) (hlt : h.number < U64) :
    ((k + 1) % st.parentSectionSize = 0 →
      BloomProcess st h = .next { st with
        sectionHeads :=
          st.sectionHeads.set (k / st.parentSectionSize) h.hashVal }) ∧
    ((k + 1) % st.parentSectionSize ≠ 0 → BloomProcess st h = .next st) := by
  have hF : BloomTrieFrequency = 32768 := rfl
  have hU : U64 = 18446744073709551616 := by norm_num [U64]
  rw [hF] at hnum hk hlen
  rw [hU] at hlt
  have e1 : (h.number % U64
      + (U64 - st.sectionIdx * BloomTrieFrequency % U64)) % U64 = k := by
    rw [hF, hU]
    omega
  have e2 : (k + 1) % U64 = k + 1 := by
    rw [hU]
    omega
  have hb : k / st.parentSectionSize < st.sectionHeads.length := by
    refine Nat.div_lt_of_lt_mul ?_
    rw [hlen]
    exact hk
  constructor
  · intro hc
    rw [BloomProcess]
    simp only [e1, e2]
    rw [if_pos hc, if_pos hb]
  · intro hc
    rw [BloomProcess]
    simp only [e1, e2]
    rw [if_neg hc]

theorem bloom_process_subsection_heads_witness :
    BloomProcess exBloomState8 { hashVal := oneHash, number := 4095 }
      = .next { exBloomState8 with
          sectionHeads := (List.replicate 8 zeroHash).set 0 oneHash } ∧
    BloomProcess exBloomState8 { hashVal := oneHash, number := 17 }
      = .next exBloomState8 :=
  ⟨(bloom_process_subsection_heads exBloomState8
      { hashVal := oneHash, number := 4095 } 4095 (by norm_num [exBloomState8])
      (by norm_num [exBloomState8, BloomTrieFrequency])
      (by norm_num [exBloomState8, BloomTrieFrequency])
      (by norm_num [BloomTrieFrequency]) (by norm_num [U64])).1
      (by norm_num [exBloomState8]),
   (bloom_process_subsection_heads exBloomState8
      { hashVal := oneHash, number := 17 } 17 (by norm_num [exBloomState8])
      (by norm_num [exBloomState8, BloomTrieFrequency])
      (by norm_num [exBloomState8, BloomTrieFrequency])
      (by norm_num [BloomTrieFrequency]) (by norm_num [U64])).2
      (by norm_num [exBloomState8])⟩

/-- Claim C1: the section pipeline `Reset -> Process* -> Commit` is
deterministic for both backends: two independent runs over the same ordered
header sequence, with pointwise-equal underlying storage, trie, difficulty
and bloom-bit oracles, produce the same section root hash and the same
persisted root records. -/
theorem runs_deterministic (openF1 openF2 : Hash → Option TrieMap)
    (cf1 cf2 : TrieMap → Option Hash) (p1 p2 : Hash → Bool)
    (td1 td2 : Hash → Nat → Option Nat)
    (rb1 rb2 : Nat → Nat → Hash → Option Bytes)
    (dc1 dc2 : Bytes → Nat → Option Bytes) (cp1 cp2 : Bytes → Bytes)
    (db1 db2 : Db) (stC : ChtState) (stB : BloomState) (sec : Nat)
    (head : Hash) (headers : List Header)
    (hopen : ∀ r, openF1 r = openF2 r) (hcf : ∀ t, cf1 t = cf2 t)
    (hp : ∀ r, p1 r = p2 r) (htd : ∀ h n, td1 h n = td2 h n)
    (hrb : ∀ i s h, rb1 i s h = rb2 i s h) (hdc : ∀ d n, dc1 d n = dc2 d n)
    (hcp : ∀ d, cp1 d = cp2 d) (hdb : ∀ k, db1 k = db2 k) :
    chtRun openF1 cf1 p1 td1 db1 stC sec head headers
      = chtRun openF2 cf2 p2 td2 db2 stC sec head headers ∧
    bloomRun openF1 cf1 p1 rb1 dc1 cp1 db1 stB sec head headers
      = bloomRun openF2 cf2 p2 rb2 dc2 cp2 db2 stB sec head headers := by
  have e1 : openF1 = openF2 := funext hopen
  have e2 : cf1 = cf2 := funext hcf
  have e3 : p1 = p2 := funext hp
  have e4 : td1 = td2 := funext fun a => funext fun b => htd a b
  have e5 : rb1 = rb2 := funext fun a => funext fun b => funext fun c => hrb a b c
  have e6 : dc1 = dc2 := funext fun a => funext fun b => hdc a b
  have e7 : cp1 = cp2 := funext hcp
  have e8 : db1 = db2 := funext hdb
  subst e1 e2 e3 e4 e5 e6 e7 e8
  exact ⟨rfl, rfl⟩

theorem runs_deterministic_witness :
    chtRun exOpen exCf exPersistOk exTd emptyDb exChtState 0 zeroHash [exHeader]
      = chtRun exOpen exCf exPersistOk exTd emptyDb exChtState 0 zeroHash
          [exHeader] ∧
    bloomRun exOpen exCf exPersistOk exRb exDc exCp emptyDb exBloomState0 0
        zeroHash [exHeader]
      = bloomRun exOpen exCf exPersistOk exRb exDc exCp emptyDb exBloomState0 0
          zeroHash [exHeader] :=
  runs_deterministic exOpen exOpen exCf exCf exPersistOk exPersistOk exTd exTd
    exRb exRb exDc exDc exCp exCp emptyDb emptyDb exChtState exBloomState0 0
    zeroHash [exHeader] (fun _ => rfl) (fun _ => rfl) (fun _ => rfl)
    (fun _ _ => rfl) (fun _ _ _ => rfl) (fun _ _ => rfl) (fun _ => rfl)
    (fun _ => rfl)

/-- Claim C4: after a successful BloomTrie commit of section `s`, the
committed trie holds, at key `bigEndian16(i) ++ bigEndian64(s)`, the
recompression of the concatenated decompressed sub-section columns of bit
`i` exactly when that recompression is non-empty, holds nothing at that key
when it is empty, and the database holds the root record keyed by `(s, last
entry of the sub-section-head array)`. -/
theorem bloom_commit_leaf_contents (cf : TrieMap → Option Hash)
    (p : Hash → Bool) (rb : Nat → Nat → Hash → Option Bytes)
    (dc : Bytes → Nat → Option Bytes) (cp : Bytes → Bytes) (db : Db)
    (st : BloomState) (root : Hash) (db2 : Db) (st2 : BloomState)
    (evs : List Ev)
    (hcommit : BloomCommit cf p rb dc cp db st = (some (root, db2, st2), evs))
    (i : Nat) (hi : i < BloomBitLength) (decomp : Bytes)
    (hcol : bloomColumn rb dc st i = some decomp) :
    (cp decomp ≠ [] →
      st2.trie (bloomTrieKey i st.sectionIdx) = some (cp decomp)) ∧
    (cp decomp = [] → st2.trie (bloomTrieKey i st.sectionIdx) = none) ∧
    db2 (bltRootKey st.sectionIdx
        (st.sectionHeads.getD (st.bloomTrieRatio - 1) zeroHash))
      = some (hashToBytes root) := by
  unfold BloomCommit at hcommit
  cases hloop : bloomCommitLoop rb dc cp st with
  | none =>
    rw [hloop] at hcommit
    exact absurd hcommit (by simp)
  | some t =>
    rw [hloop] at hcommit
    have hfin : bloomFinish cf p db st t = (some (root, db2, st2), evs) := hcommit
    unfold bloomFinish at hfin
    cases hcf : cf t with
    | none =>
      rw [hcf] at hfin
      exact absurd hfin (by simp)
    | some r =>
      rw [hcf] at hfin
      simp only [Prod.mk.injEq, Option.some.injEq] at hfin
      obtain ⟨⟨hr, hdb2, hst2⟩, _⟩ := hfin
      subst hr hdb2 hst2
      obtain ⟨d, hd, hv⟩ := bloomLoop_lookup rb dc cp st BloomBitLength
        (by norm_num [BloomBitLength]) st.trie t hloop i hi
      rw [hcol] at hd
      obtain rfl : decomp = d := Option.some.inj hd
      refine ⟨?_, ?_, ?_⟩
      · intro hne
        show t (bloomTrieKey i st.sectionIdx) = some (cp decomp)
        rw [hv, if_pos (List.length_pos.2 hne)]
      · intro heq
        show t (bloomTrieKey i st.sectionIdx) = none
        rw [hv, if_neg (by rw [heq]; exact lt_irrefl 0)]
      · exact dbPut_same db _ _

theorem ex_bloom_column_empty (i : Nat) :
    bloomColumn exRb exDc exBloomState0 i = some [] := rfl

theorem ex_bloom_step_deletes (t : TrieMap) (i : Nat) :
    bloomStep exRb exDc exCp exBloomState0 t i
      = some (trieDelete t (bloomTrieKey i 0)) := rfl

theorem ex_bloom_loop (n : Nat) :
    ∀ t0, bloomLoopAux (bloomStep exRb exDc exCp exBloomState0) n t0
      = some (exDeleteAux n t0) := by
  induction n with
  | zero => intro t0; rfl
  | succ n ih =>
    intro t0
    unfold bloomLoopAux
    rw [ih t0]
    exact ex_bloom_step_deletes (exDeleteAux n t0) n

theorem ex_bloom_commit :
    BloomCommit exCf exPersistOk exRb exDc exCp emptyDb exBloomState0
      = (some (zeroHash, StoreBloomTrieRoot emptyDb 0 zeroHash zeroHash,
           { exBloomState0 with trie := exDeleteAux BloomBitLength emptyTrie }),
         [Ev.persistNodes zeroHash true,
          Ev.storeRoot (bltRootKey 0 zeroHash) (hashToBytes zeroHash)]) := by
  unfold BloomCommit
  rw [show bloomCommitLoop exRb exDc exCp exBloomState0
    = some (exDeleteAux BloomBitLength emptyTrie) from
      ex_bloom_loop BloomBitLength emptyTrie]
  rfl

theorem bloom_commit_leaf_contents_witness :
    (exCp [] ≠ [] →
      ({ exBloomState0 with
          trie := exDeleteAux BloomBitLength emptyTrie } : BloomState).trie
          (bloomTrieKey 0 exBloomState0.sectionIdx) = some (exCp [])) ∧
    (exCp [] = [] →
      ({ exBloomState0 with
          trie := exDeleteAux BloomBitLength emptyTrie } : BloomState).trie
          (bloomTrieKey 0 exBloomState0.sectionIdx) = none) ∧
    (StoreBloomTrieRoot emptyDb 0 zeroHash zeroHash)
        (bltRootKey exBloomState0.sectionIdx
          (exBloomState0.sectionHeads.getD (exBloomState0.bloomTrieRatio - 1)
            zeroHash))
      = some (hashToBytes zeroHash) :=
  bloom_commit_leaf_contents exCf exPersistOk exRb exDc exCp emptyDb
    exBloomState0 zeroHash (StoreBloomTrieRoot emptyDb 0 zeroHash zeroHash)
    { exBloomState0 with trie := exDeleteAux BloomBitLength emptyTrie }
    [Ev.persistNodes zeroHash true,
     Ev.storeRoot (bltRootKey 0 zeroHash) (hashToBytes zeroHash)]
    ex_bloom_commit 0 (by norm_num [BloomBitLength]) [] rfl

end Light
